import Mathlib

/-!
Verification development for the event_db web application (Go).

The repository stores incoming "event" payloads in a relational table and
serves a dashboard over them.  This file gives a shallow embedding of the
pieces of the code that the checked specification sentences talk about:

* the plain-text extraction helpers of internal/utils/utils.go
  (ExtractPlain, ExtractInlineMIMEParts, cleanMessageContent), together
  with models of the Go standard-library routines they call
  (strings/bytes helpers, mime/quotedprintable, mime/multipart and the
  net/textproto MIME-header reader);
* the in-memory auth store of internal/auth/auth.go (CreateUser,
  Authenticate, CreateSession, GetSession, DeleteSession);
* the database access layer of internal/database/database.go
  (StoreEvent, GetEventByID, UpdateEvent, DeleteEvent) over an abstract
  list-of-rows state, with json.Marshal / json.Unmarshal of string lists
  modelled concretely;
* the web/API handlers HandleEventReceive (internal/api/handler.go) and
  HandleEditEventPost (internal/web/handlers.go).

Byte strings are modelled as `List Char`, reading each byte as one
character; the model of the Unicode-aware Go helpers (ToLower, IsSpace)
covers the ASCII range, which is the range all checked properties and
all concrete inputs live in.  External effects are made explicit:
wall-clock reads become a `Nat` parameter, random identifiers and bcrypt
hashing become function parameters, database driver failures become
explicit failure flags, and the html2text conversion used by
ExtractPlain is a function parameter.
-/

set_option autoImplicit false

namespace EventDb

/-- Byte strings of the Go code, one `Char` per byte. -/
abbrev Str := List Char

/-- Shorthand turning a Lean string literal into the `List Char` model. -/
def sl (s : String) : Str := s.toList

/-- Model of Go `unicode.IsSpace` on the ASCII range, as used by
`strings.TrimSpace` / `bytes.TrimSpace` / `strings.Fields`. -/
def goIsSpace (c : Char) : Bool :=
  c = ' ' || c = '\t' || c = '\n' || c = Char.ofNat 11 || c = Char.ofNat 12 || c = '\r'

/-- Model of Go `strings.HasPrefix` / `bytes.HasPrefix`. -/
def startsWith : Str → Str → Bool
  | [], _ => true
  | _ :: _, [] => false
  | p :: ps, c :: cs => p = c && startsWith ps cs

/-- Model of Go `strings.HasSuffix`. -/
def endsWith (suffix s : Str) : Bool :=
  startsWith suffix.reverse s.reverse

/-- Model of Go `strings.TrimPrefix`: drop one leading copy of the pattern. -/
def dropPre (pat s : Str) : Str :=
  if startsWith pat s then s.drop pat.length else s

/-- Trim characters of the cutset from the right, as Go `strings.TrimRight`. -/
def trimRightIn (cutset : Str) (s : Str) : Str :=
  (s.reverse.dropWhile (fun c => cutset.contains c)).reverse

/-- Trim characters of the cutset from the left, as Go `strings.TrimLeft`. -/
def trimLeftIn (cutset : Str) (s : Str) : Str :=
  s.dropWhile (fun c => cutset.contains c)

/-- Model of Go `strings.TrimSpace` / `bytes.TrimSpace` (ASCII range). -/
def goTrimSpace (s : Str) : Str :=
  (((s.dropWhile goIsSpace).reverse).dropWhile goIsSpace).reverse

/-- Model of Go `strings.ToLower` on one ASCII character. -/
def goLowerChar (c : Char) : Char :=
  if 65 ≤ c.toNat ∧ c.toNat ≤ 90 then Char.ofNat (c.toNat + 32) else c

/-- Model of Go `strings.ToLower` (ASCII range). -/
def goToLower (s : Str) : Str := s.map goLowerChar

/-- Index of the first occurrence of a pattern, as Go `strings.Index`
restricted to non-negative results (`none` models -1). -/
def occurIdx (pat : Str) : Str → Option Nat
  | [] => if startsWith pat [] then some 0 else none
  | c :: rest =>
    if startsWith pat (c :: rest) then some 0
    else (occurIdx pat rest).map (· + 1)

/-- Model of Go `strings.Contains`. -/
def containsSub (s pat : Str) : Bool := (occurIdx pat s).isSome

/-- Index of the first occurrence of a byte, as Go `bytes.IndexByte`. -/
def idxOfChar (c : Char) (s : Str) : Option Nat := occurIdx [c] s

/-- Fuel-driven worker for `splitOnSub`; the fuel is always ample because
every step consumes at least one character of a non-empty separator. -/
def splitGo (sep : Str) : Nat → Str → List Str
  | 0, s => [s]
  | fuel + 1, s =>
    match occurIdx sep s with
    | none => [s]
    | some i => s.take i :: splitGo sep fuel (s.drop (i + sep.length))

/-- Model of Go `strings.Split` with a non-empty separator. -/
def splitOnSub (s sep : Str) : List Str := splitGo sep (s.length + 1) s

/-- Model of Go `strings.Join`. -/
def joinSep (sep : Str) : List Str → Str
  | [] => []
  | [x] => x
  | x :: y :: rest => x ++ sep ++ joinSep sep (y :: rest)

/-- Worker for `fields` with an accumulator holding the current word
reversed. -/
def fieldsGo : Str → Str → List Str
  | [], cur => if cur.isEmpty then [] else [cur.reverse]
  | c :: rest, cur =>
    if goIsSpace c then
      if cur.isEmpty then fieldsGo rest [] else cur.reverse :: fieldsGo rest []
    else fieldsGo rest (c :: cur)

/-- Model of Go `strings.Fields`: the maximal runs of non-whitespace. -/
def fields (s : Str) : List Str := fieldsGo s []

/-- Worker for `linesKeep` with an accumulator holding the current chunk
reversed. -/
def linesKeepGo : Str → Str → List Str
  | [], cur => if cur.isEmpty then [] else [cur.reverse]
  | c :: rest, cur =>
    if c = '\n' then (cur.reverse ++ ['\n']) :: linesKeepGo rest []
    else linesKeepGo rest (c :: cur)

/-- Split into chunks after every newline, keeping the newline, as the
successive results of `bufio.ReadSlice` with delimiter `'\n'`; the final
chunk lacks the newline exactly when the input does not end in one. -/
def linesKeep (s : Str) : List Str := linesKeepGo s []

/-! Model of `mime/quotedprintable.Reader`.  Decoding works line by line,
exactly as the Go reader does: trailing quoted-printable whitespace is
stripped, a trailing `=` is a soft line break (legal before a line feed
or at end of input), `=XX` hex escapes are decoded, a `=` not followed by
two hex digits is taken literally unless a CR or LF follows, and bytes
outside the printable range (other than TAB, CR, LF and bytes >= 0x80)
are an error.  The boolean result is `false` when the Go reader would
report an error; the string result is the output produced up to that
point, matching what `io.ReadAll` hands back when its error is ignored. -/

/-- Characters discarded from the right of a quoted-printable line
(Go `isQPDiscardWhiteSpace`). -/
def qpWS : Str := ['\n', '\r', ' ', '\t']

/-- Hex digit test of Go `fromHexChar`. -/
def isHexDigit (c : Char) : Bool :=
  (48 ≤ c.toNat && c.toNat ≤ 57) || (97 ≤ c.toNat && c.toNat ≤ 102) ||
    (65 ≤ c.toNat && c.toNat ≤ 70)

/-- Hex digit value of Go `fromHexChar`. -/
def hexVal (c : Char) : Nat :=
  if 48 ≤ c.toNat && c.toNat ≤ 57 then c.toNat - 48
  else if 97 ≤ c.toNat && c.toNat ≤ 102 then c.toNat - 87
  else if 65 ≤ c.toNat && c.toNat ≤ 70 then c.toNat - 55
  else 0

/-- Per-line preparation of the quoted-printable reader: returns the line
content to decode and a flag marking an invalid soft line break.
`isLast` is true when the line was returned together with `io.EOF`,
that is, when it does not end in a newline. -/
def qpPrep (whole : Str) (isLast : Bool) : Str × Bool :=
  let line1 := trimRightIn qpWS whole
  if endsWith (sl "=") line1 then
    let lineFinal := line1.dropLast
    let rightStripped := whole.drop line1.length
    if startsWith (sl "\n") rightStripped || startsWith (sl "\r\n") rightStripped then
      (lineFinal, false)
    else if rightStripped.isEmpty && ¬ lineFinal.isEmpty && isLast then
      (lineFinal, false)
    else
      (lineFinal, true)
  else
    let hasLF := endsWith (sl "\n") whole
    let hasCR := endsWith (sl "\r\n") whole
    if hasLF then
      if hasCR then (line1 ++ sl "\r\n", false) else (line1 ++ sl "\n", false)
    else (line1, false)

/-- Decode the bytes of one prepared quoted-printable line; the flag is
`false` on a decoding error, with the partial output kept. -/
def qpChars : Str → Str × Bool
  | [] => ([], true)
  | c :: rest =>
    if c = '=' then
      match rest with
      | a :: b :: rest' =>
        if isHexDigit a && isHexDigit b then
          let r := qpChars rest'
          (Char.ofNat (16 * hexVal a + hexVal b) :: r.1, r.2)
        else if a ≠ '\r' && a ≠ '\n' then
          let r := qpChars (a :: b :: rest')
          ('=' :: r.1, r.2)
        else ([], false)
      | [a] =>
        if a ≠ '\r' && a ≠ '\n' then
          let r := qpChars [a]
          ('=' :: r.1, r.2)
        else ([], false)
      | [] => ([], false)
    else if c = '\t' || c = '\r' || c = '\n' then
      let r := qpChars rest
      (c :: r.1, r.2)
    else if 128 ≤ c.toNat then
      let r := qpChars rest
      (c :: r.1, r.2)
    else if c.toNat < 32 || 126 < c.toNat then ([], false)
    else
      let r := qpChars rest
      (c :: r.1, r.2)

/-- Line-by-line quoted-printable decoding over `linesKeep` chunks. -/
def qpLines : List Str → Str × Bool
  | [] => ([], true)
  | l :: rest =>
    let p := qpPrep l (¬ endsWith (sl "\n") l)
    let r := qpChars p.1
    if ¬ r.2 then (r.1, false)
    else if p.2 then (r.1, false)
    else
      let r2 := qpLines rest
      (r.1 ++ r2.1, r2.2)

/-- Model of draining `quotedprintable.NewReader`: the decoded bytes and
a success flag (`true` when the Go reader reaches a clean end of input). -/
def qpDecode (s : Str) : Str × Bool := qpLines (linesKeep s)

/-! Model of `mime/multipart.Reader` (as driven by `ExtractPlain`, which
reads the whole input with `bytes.NewReader`), together with the
`net/textproto` MIME-header reader it uses.  The reader walks the input
line by line: it skips a preamble, recognises boundary delimiter lines
`--boundary` and the closing delimiter `--boundary--` (switching its
line-ending convention from CRLF to bare LF when the first delimiter
line ends in a bare LF, as the Go reader does), reads the MIME headers
of each part, and takes the part body to run up to, but not including,
the line ending that precedes the next delimiter.  A part whose headers
declare `Content-Transfer-Encoding: quoted-printable` has its body
decoded transparently, with a decoding error ignored exactly as
`io.ReadAll`'s error is ignored in `ExtractPlain`. -/

/-- Drop the end-of-line bytes of one `linesKeep` chunk
(`bufio.Reader.ReadLine` semantics). -/
def stripNL (l : Str) : Str :=
  if endsWith (sl "\r\n") l then l.dropLast.dropLast
  else if endsWith (sl "\n") l then l.dropLast
  else l

/-- Skip leading spaces and tabs (Go `skipLWSPChar`). -/
def skipLWSP (s : Str) : Str := s.dropWhile (fun c => c = ' ' || c = '\t')

/-- Trim spaces and tabs from both ends (the `trim` helper of
`net/textproto`). -/
def trimTS (s : Str) : Str := trimLeftIn (sl " \t") (trimRightIn (sl " \t") s)

/-- Valid bytes of a MIME header field name (Go
`validHeaderFieldByte`): an RFC 7230 token character. -/
def validTokenChar (c : Char) : Bool :=
  (48 ≤ c.toNat && c.toNat ≤ 57) || (65 ≤ c.toNat && c.toNat ≤ 90) ||
    (97 ≤ c.toNat && c.toNat ≤ 122) ||
    [33, 35, 36, 37, 38, 39, 42, 43, 45, 46, 94, 95, 96, 124, 126].contains c.toNat

/-- Valid bytes of a MIME header field value (Go `validHeaderValueByte`). -/
def validValueChar (c : Char) : Bool :=
  c.toNat = 9 || (32 ≤ c.toNat && c.toNat ≤ 126) || 128 ≤ c.toNat

/-- Worker for `canonKey`: upper-case letters after a start or a dash,
lower-case the rest (Go `canonicalMIMEHeaderKey`). -/
def canonGo : Bool → Str → Str
  | _, [] => []
  | upper, c :: rest =>
    let c' :=
      if upper && 97 ≤ c.toNat && c.toNat ≤ 122 then Char.ofNat (c.toNat - 32)
      else if ¬ upper && 65 ≤ c.toNat && c.toNat ≤ 90 then Char.ofNat (c.toNat + 32)
      else c
    c' :: canonGo (c' = '-') rest

/-- Canonical MIME header key of a valid token. -/
def canonKey (k : Str) : Str := canonGo true k

/-- Merge header continuation lines (lines opening with space or tab)
into the current logical header line, joined by single spaces, as
`textproto.Reader.readContinuedLineSlice` does. -/
def mergeCont (acc : Str) : List Str → Str × List Str
  | [] => (acc, [])
  | l :: rest =>
    match l with
    | [] => (acc, [] :: rest)
    | c :: _ =>
      if c = ' ' || c = '\t' then mergeCont (acc ++ [' '] ++ trimTS (stripNL l)) rest
      else (acc, l :: rest)

/-- Outcome of reading a MIME header block. -/
inductive HeadersOut where
  | ok (hs : List (Str × Str)) (rest : List Str)
  | eofEnd
  | malformed
deriving DecidableEq

/-- Fuel-driven worker for `parseHeaders`; each step consumes at least
one chunk, so the fuel of `parseHeaders` is always ample. -/
def headersGo : Nat → List Str → HeadersOut
  | 0, _ => .malformed
  | _ + 1, [] => .eofEnd
  | fuel + 1, l :: rest =>
    let s0 := stripNL l
    if s0.isEmpty then .ok [] rest
    else
      let m := mergeCont (trimTS s0) rest
      match occurIdx (sl ":") m.1 with
      | none => .malformed
      | some i =>
        let k := m.1.take i
        let v := m.1.drop (i + 1)
        if ¬ k.all validTokenChar then .malformed
        else if ¬ v.all validValueChar then .malformed
        else if k.isEmpty then headersGo fuel m.2
        else
          match headersGo fuel m.2 with
          | .ok hs rest' => .ok ((canonKey k, trimLeftIn (sl " \t") v) :: hs) rest'
          | r => r

/-- Model of `textproto.Reader.ReadMIMEHeader` as called by
`multipart.Reader.NextPart`: `eofEnd` is the case where the reader runs
out of input before the blank line (the Go reader then reports `io.EOF`,
which `NextPart` passes through and `ExtractPlain` treats as a normal
end of the multipart body); `malformed` is any `ProtocolError`. -/
def parseHeaders (chunks : List Str) : HeadersOut :=
  match chunks with
  | [] => .eofEnd
  | l :: _ =>
    match l with
    | [] => .malformed
    | c :: _ =>
      if c = ' ' || c = '\t' then .malformed
      else headersGo (chunks.length + 1) chunks

/-- First value stored under a canonical header key
(`textproto.MIMEHeader.Get`). -/
def headerGet (hs : List (Str × Str)) (key : Str) : Str :=
  ((hs.find? (fun p => p.1 = key)).map Prod.snd).getD []

/-- Bytes that may follow a boundary for it to count as a real one
(Go `matchAfterPrefix`): double dash, space, tab, CR, NL, or end of
input (the empty case). -/
def boundaryTerm : Str → Bool
  | [] => true
  | c :: _ => c = '-' || c = ' ' || c = '\t' || c = '\r' || c = '\n'

/-- Walk the chunks of a part body looking for the earliest line ending
followed by a boundary delimiter (Go `scanUntilBoundary` searching for
`nl ++ "--" ++ boundary`); returns the body, the unconsumed chunks and
whether a boundary was found. -/
def bodyGo (dash nl : Str) : List Str → Str × List Str × Bool
  | [] => ([], [], false)
  | [l] => (l, [], false)
  | l :: l2 :: rest =>
    if endsWith nl l && startsWith dash l2 && boundaryTerm (l2.drop dash.length) then
      (l.take (l.length - nl.length), nl :: l2 :: rest, true)
    else
      let r := bodyGo dash nl (l2 :: rest)
      (l ++ r.1, r.2.1, r.2.2)

/-- Part-body scan, including the Go special case that allows the
boundary at the very start of a body without a preceding line ending. -/
def bodyScan (dash nl : Str) (chunks : List Str) : Str × List Str × Bool :=
  match chunks with
  | [] => ([], [], false)
  | l :: _ =>
    if startsWith dash l && boundaryTerm (l.drop dash.length) then ([], chunks, true)
    else bodyGo dash nl chunks

/-- Closing-delimiter test of the reader (Go `isFinalBoundary`): the
line is `--boundary--`, then optional spaces and tabs, then nothing or
the current line ending. -/
def isFinalB (dash nl : Str) (line : Str) : Bool :=
  let ddash := dash ++ sl "--"
  startsWith ddash line &&
    (let r := skipLWSP (line.drop ddash.length)
     r.isEmpty || r = nl)

/-- Delimiter-line test of the reader (Go `isBoundaryDelimiterLine`),
returning the verdict and the possibly switched line-ending convention:
before the first part, a delimiter line ending in a bare LF switches the
reader from CRLF to LF endings. -/
def isDelimB (dash nl : Str) (partsRead : Nat) (line : Str) : Bool × Str :=
  if startsWith dash line then
    let r := skipLWSP (line.drop dash.length)
    let nl' := if partsRead = 0 && r = sl "\n" then sl "\n" else nl
    (r = nl', nl')
  else (false, nl)

/-- One part as produced by the multipart reader model: the raw
`Content-Type` header value and the body handed back by `io.ReadAll`. -/
structure MPart where
  ct : Str
  body : Str
deriving DecidableEq, Repr

/-- Outcome of one `NextPart` call. -/
inductive NPOut where
  | err
  | eofDone
  | part (p : MPart) (nl : Str) (rest : List Str)
deriving DecidableEq

/-- Model of `multipart.Reader.NextPart` (plus draining the part body):
walks chunks skipping the preamble, recognises delimiter and closing
lines, errors on unexpected lines after the first part, reads the MIME
headers and scans the body, decoding quoted-printable bodies as the Go
`Part` reader does. -/
def nextPartGo (dash : Str) : Str → Nat → Bool → List Str → NPOut
  | _, _, _, [] => .err
  | nl, partsRead, expectNew, l :: rest =>
    if ¬ endsWith (sl "\n") l then
      if isFinalB dash nl l then .eofDone else .err
    else
      let d := isDelimB dash nl partsRead l
      if d.1 then
        match parseHeaders rest with
        | .eofEnd => .eofDone
        | .malformed => .err
        | .ok hs rest' =>
          let b := bodyScan dash d.2 rest'
          let body :=
            if headerGet hs (sl "Content-Transfer-Encoding") = sl "quoted-printable" then
              (qpDecode b.1).1
            else b.1
          .part ⟨headerGet hs (sl "Content-Type"), body⟩ d.2 b.2.1
      else if isFinalB dash nl l then .eofDone
      else if expectNew then .err
      else if partsRead = 0 then nextPartGo dash nl partsRead false rest
      else if l = nl then nextPartGo dash nl partsRead true rest
      else .err

/-- Fuel-driven drain of the multipart reader: calls `NextPart` until
clean end of input (`ok`, the parts in order) or an error other than
end of input (`error`).  Every part consumes at least two chunks, so the
fuel is always ample. -/
def drainGo (dash : Str) : Nat → Str → Nat → List Str → Except Unit (List MPart)
  | 0, _, _, _ => .error ()
  | fuel + 1, nl, partsRead, chunks =>
    match nextPartGo dash nl partsRead false chunks with
    | .err => .error ()
    | .eofDone => .ok []
    | .part p nl' rest => (drainGo dash fuel nl' (partsRead + 1) rest).map (p :: ·)

/-- Model of reading every part of `multipart.NewReader(r, boundary)`. -/
def readAllParts (boundary : Str) (s : Str) : Except Unit (List MPart) :=
  if boundary.isEmpty then .error ()
  else
    let chunks := linesKeep s
    drainGo (sl "--" ++ boundary) (chunks.length + 1) (sl "\r\n") 0 chunks

/-! The extraction helpers of internal/utils/utils.go. -/

/-- Content-Type test of the first branch of the `ExtractPlain` loop. -/
def plainCT (p : MPart) : Bool := startsWith (sl "text/plain") p.ct

/-- Content-Type test of the second branch of the `ExtractPlain` loop. -/
def htmlCT (p : MPart) : Bool := startsWith (sl "text/html") p.ct

/-- The `plain` and `html` accumulators after the `ExtractPlain` loop:
each matching part overwrites its accumulator, so the last one wins. -/
def partsAccum (parts : List MPart) : Str × Str :=
  parts.foldl
    (fun acc p =>
      if plainCT p then (p.body, acc.2)
      else if htmlCT p then (acc.1, p.body)
      else acc)
    ([], [])

/-- Boundary string `ExtractPlain` derives from the first line of the
trimmed input: the first line, whitespace-trimmed, minus a leading
`--`. -/
def boundaryOf (data : Str) : Str :=
  let trimmed := goTrimSpace data
  match idxOfChar '\n' trimmed with
  | none => []
  | some i => dropPre (sl "--") (goTrimSpace (trimmed.take i))

/-- Model of `utils.ExtractPlain` (internal/utils/utils.go).  The
html2text conversion of the `text/html` branch is the external library
call `html2text.FromString`, passed in as the parameter `h2t`.  Both the
returned string and the error slot are modelled by `Except Unit Str`
(the Go function returns `("", err)` when the conversion fails). -/
def ExtractPlain (h2t : Str → Except Unit Str) (data : Str) : Except Unit Str :=
  let trimmed := goTrimSpace data
  if ¬ startsWith (sl "--") trimmed then .ok trimmed
  else
    match idxOfChar '\n' trimmed with
    | none => .ok trimmed
    | some i =>
      let boundary := dropPre (sl "--") (goTrimSpace (trimmed.take i))
      match readAllParts boundary trimmed with
      | .error _ => .ok trimmed
      | .ok parts =>
        let acc := partsAccum parts
        if ¬ acc.1.isEmpty then .ok (goTrimSpace acc.1)
        else if ¬ acc.2.isEmpty then (h2t acc.2).map goTrimSpace
        else .ok []

/-- Model of `utils.cleanMessageContent`: a conditional second
quoted-printable pass when the text still contains `=` before a line
ending, removal of every line containing the iPhone signature, and a
final trim of trailing CR, LF, space, tab and `=`. -/
def cleanMessageContent (content : Str) : Str :=
  let content :=
    if containsSub (goToLower content) (sl "=\r\n") ||
        containsSub (goToLower content) (sl "=\n") then
      let d := qpDecode content
      if d.2 then d.1 else content
    else content
  let lines := splitOnSub content (sl "\r\n")
  let cleanLines := lines.filter (fun l => ¬ containsSub l (sl "Sent from my iPhone"))
  trimRightIn (sl "\r\n \t=") (joinSep (sl "\r\n") cleanLines)

/-- The body of the `ExtractInlineMIMEParts` loop for one section of the
split input: `none` when the section is skipped, otherwise the cleaned
content (which is appended only when non-empty). -/
def inlineSection (sec : Str) : Option Str :=
  let s := goTrimSpace sec
  if s.isEmpty || endsWith (sl "--") s then none
  else
    let secLower := goToLower s
    if containsSub secLower (sl "content-disposition: attachment") then none
    else
      let isQuotedPrintable :=
        containsSub secLower (sl "content-transfer-encoding: quoted-printable")
      let content :=
        match occurIdx (sl "\r\n\r\n") s with
        | some i => s.drop (i + 4)
        | none =>
          match occurIdx (sl "\n\n") s with
          | some i => s.drop (i + 2)
          | none => []
      let content := goTrimSpace content
      let content :=
        if isQuotedPrintable then
          let d := qpDecode content
          if d.2 then d.1 else content
        else content
      some (cleanMessageContent content)

/-- One iteration of the `ExtractInlineMIMEParts` loop: append the
cleaned content when the section was not skipped and the content is
non-empty. -/
def inlineStep (parts : List Str) (sec : Str) : List Str :=
  match inlineSection sec with
  | none => parts
  | some content => if ¬ content.isEmpty then parts ++ [content] else parts

/-- Model of `utils.ExtractInlineMIMEParts`: split the body on
`--boundary`, skip empty sections, closing sections and attachments,
take the content after the first blank line, decode quoted-printable
when declared, clean, and keep the non-empty results. -/
def ExtractInlineMIMEParts (body boundary : Str) : List Str :=
  (splitOnSub body (sl "--" ++ boundary)).foldl inlineStep []

/-! Model of `encoding/json` on lists of strings, as used for the tags
column: `json.Marshal` of a `[]string` (with the encoder's default HTML
escaping) and `json.Unmarshal` back into a `[]string`. -/

/-- Lower-case hex digit. -/
def hexChar (n : Nat) : Char :=
  if n < 10 then Char.ofNat (48 + n) else Char.ofNat (87 + n)

/-- Escape one character as Go's JSON string encoder does: quote and
backslash get a backslash, LF, CR and TAB their short escapes, the other
control characters and the HTML-escaped characters a `\u00XX` form. -/
def jsonEscChar (c : Char) : Str :=
  if c = '"' then ['\\', '"']
  else if c = '\\' then ['\\', '\\']
  else if c = '\n' then ['\\', 'n']
  else if c = '\r' then ['\\', 'r']
  else if c = '\t' then ['\\', 't']
  else if c.toNat < 32 || c = '<' || c = '>' || c = '&' then
    ['\\', 'u', '0', '0', hexChar (c.toNat / 16), hexChar (c.toNat % 16)]
  else [c]

/-- JSON encoding of one string. -/
def jsonEncStr (s : Str) : Str := ['"'] ++ s.flatMap jsonEscChar ++ ['"']

/-- Model of `json.Marshal` on a `[]string` value (compact form). -/
def jsonEnc (tags : List Str) : Str :=
  ['['] ++ joinSep [','] (tags.map jsonEncStr) ++ [']']

/-- Unescape after a backslash for the JSON string decoder; returns the
decoded character and the remaining input. -/
def jsonUnesc (e : Char) (rest : Str) : Option (Char × Str) :=
  if e = '"' || e = '\\' || e = '/' then some (e, rest)
  else if e = 'n' then some ('\n', rest)
  else if e = 'r' then some ('\r', rest)
  else if e = 't' then some ('\t', rest)
  else if e = 'b' then some (Char.ofNat 8, rest)
  else if e = 'f' then some (Char.ofNat 12, rest)
  else if e = 'u' then
    match rest with
    | a :: b :: c :: d :: rest' =>
      if isHexDigit a && isHexDigit b && isHexDigit c && isHexDigit d then
        some (Char.ofNat (4096 * hexVal a + 256 * hexVal b + 16 * hexVal c + hexVal d), rest')
      else none
    | _ => none
  else none

/-- Fuel-driven decoder of one JSON string body (after the opening
quote), returning the content and the input after the closing quote;
each step consumes at least one character, so the fuel used by
`jsonListGo` is always ample. -/
def jsonStrGo : Nat → Str → Option (Str × Str)
  | 0, _ => none
  | _ + 1, [] => none
  | fuel + 1, c :: rest =>
    if c = '"' then some ([], rest)
    else if c = '\\' then
      match rest with
      | [] => none
      | e :: rest' =>
        match jsonUnesc e rest' with
        | none => none
        | some (d, rest'') => (jsonStrGo fuel rest'').map (fun r => (d :: r.1, r.2))
    else (jsonStrGo fuel rest).map (fun r => (c :: r.1, r.2))

/-- Fuel-driven list-of-strings decoder after the opening bracket. -/
def jsonListGo : Nat → Str → Option (List Str)
  | 0, _ => none
  | fuel + 1, s =>
    match s with
    | '"' :: rest =>
      match jsonStrGo (rest.length + 1) rest with
      | none => none
      | some (item, rest') =>
        match rest' with
        | ']' :: rest'' => if rest''.isEmpty then some [item] else none
        | ',' :: rest'' => (jsonListGo fuel rest'').map (item :: ·)
        | _ => none
    | _ => none

/-- Model of `json.Unmarshal` of the tags column into a `[]string`:
`none` models a parse error. -/
def jsonDec (s : Str) : Option (List Str) :=
  match s with
  | '[' :: rest =>
    match rest with
    | [']'] => some []
    | _ => jsonListGo (s.length + 1) rest
  | _ => none

/-! Model of internal/database/database.go.  The relational store is a
list of event rows (the `tags` column holding JSON text, as in the
schema) plus a list of event_logs rows; `nextId` models the SERIAL id
sequence.  Driver failures, which the Lean store cannot produce by
itself, are explicit parameters (`fail` flags), so that the error paths
of the Go code are part of the model. -/

/-- One row of the events table. -/
structure EventRow where
  id : Nat
  tagsJson : Str
  data : Str
  source : Str
  createdAt : Nat
deriving DecidableEq, Repr

/-- One row of the event_logs table. -/
structure LogRow where
  eventId : Nat
  status : Str
  errorMessage : Str
deriving DecidableEq, Repr

/-- The database state. -/
structure DB where
  events : List EventRow
  logs : List LogRow
  nextId : Nat
deriving DecidableEq, Repr

/-- `models.EventRequest`. -/
structure EventRequest where
  tags : List Str
  data : Str
  source : Str
deriving DecidableEq, Repr

/-- `models.Event`. -/
structure GoEvent where
  id : Nat
  tags : List Str
  data : Str
  source : Str
  createdAt : Nat
deriving DecidableEq, Repr

/-- Errors of the database layer. -/
inductive DbErr where
  | insertFailed
  | parseTags
  | eventNotFound (id : Nat)
  | beginFailed
  | deleteLogsFailed
  | deleteEventFailed
  | commitFailed
deriving DecidableEq, Repr

/-- Model of `Database.LogEventStatus`: id 0 only logs to stdout, any
other id appends an event_logs row. -/
def LogEventStatus (db : DB) (eventId : Nat) (status errorMessage : Str) : DB :=
  if eventId = 0 then db
  else { db with logs := db.logs ++ [⟨eventId, status, errorMessage⟩] }

/-- Model of `Database.StoreEvent`.  `fail` injects the driver failure
of the INSERT (json.Marshal of a string list cannot fail).  The two
`time.Now()` calls of the Go code are modelled as the same instant
`now`. -/
def StoreEvent (db : DB) (req : EventRequest) (now : Nat) (fail : Bool) :
    Except DbErr GoEvent × DB :=
  let tagsJSON := jsonEnc req.tags
  let cleanData := trimRightIn (sl "\r\n") req.data
  if fail then
    (.error .insertFailed, LogEventStatus db 0 (sl "error") (sl "failed to insert event"))
  else
    let id := db.nextId
    let db1 :=
      { db with
        events := db.events ++ [⟨id, tagsJSON, cleanData, req.source, now⟩]
        nextId := id + 1 }
    (.ok ⟨id, req.tags, cleanData, req.source, now⟩,
      LogEventStatus db1 id (sl "success") [])

/-- Model of `Database.GetEventByID`: `ok none` models `sql.ErrNoRows`
(the Go function then returns `(nil, nil)`), and a tags column that does
not decode is the "failed to parse tags" error. -/
def GetEventByID (db : DB) (id : Nat) : Except DbErr (Option GoEvent) :=
  match db.events.find? (fun r => r.id = id) with
  | none => .ok none
  | some r =>
    match jsonDec r.tagsJson with
    | none => .error .parseTags
    | some ts => .ok (some ⟨r.id, ts, r.data, r.source, r.createdAt⟩)

/-- Model of `Database.UpdateEvent`: re-encode the tags, trim trailing
CR and LF from the data, update every row with the event's id (leaving
created_at alone), report "not found" when no row was affected, and log
the update. -/
def UpdateEvent (db : DB) (ev : GoEvent) : Except DbErr Unit × DB :=
  let tagsJSON := jsonEnc ev.tags
  let cleanData := trimRightIn (sl "\r\n") ev.data
  if db.events.countP (fun r => r.id = ev.id) = 0 then
    (.error (.eventNotFound ev.id), db)
  else
    let db1 :=
      { db with
        events := db.events.map (fun r =>
          if r.id = ev.id then
            { r with tagsJson := tagsJSON, data := cleanData, source := ev.source }
          else r) }
    (.ok (), LogEventStatus db1 ev.id (sl "updated") [])

/-- Transaction failure points of `Database.DeleteEvent`. -/
inductive TxFail where
  | atBegin
  | atDeleteLogs
  | atDeleteEvent
  | atCommit
deriving DecidableEq, Repr

/-- Model of `Database.DeleteEvent`: inside one transaction, delete the
event_logs rows of the id, delete the event row, error with "not found"
when no event row was affected, and commit; any error rolls the
transaction back, leaving the store as it was.  `txf` injects the driver
failures of the four fallible steps. -/
def DeleteEvent (db : DB) (id : Nat) (txf : Option TxFail) : Except DbErr Unit × DB :=
  if txf = some .atBegin then (.error .beginFailed, db)
  else if txf = some .atDeleteLogs then (.error .deleteLogsFailed, db)
  else
    let txLogs := db.logs.filter (fun l => ¬ l.eventId = id)
    if txf = some .atDeleteEvent then (.error .deleteEventFailed, db)
    else
      let txEvents := db.events.filter (fun r => ¬ r.id = id)
      if db.events.countP (fun r => r.id = id) = 0 then
        (.error (.eventNotFound id), db)
      else if txf = some .atCommit then (.error .commitFailed, db)
      else (.ok (), { db with events := txEvents, logs := txLogs })

/-! Models of the HTTP handlers the claims mention.  Request decoding
and response writing are outside the model: the handlers take the bound
form/JSON fields and return the state change plus an abstract outcome. -/

/-- Model of `api.Handler.HandleEventReceive` (internal/api/handler.go,
the revision at the cited lines) for a payload that passed JSON binding:
tags are the whitespace-separated words of the subject, lower-cased,
with `untagged` for an empty list; the body is normalised with
`ExtractPlain` (falling back to the raw body when it errors) and the
event is stored. -/
def HandleEventReceive (h2t : Str → Except Unit Str) (db : DB)
    (subject bodyData source : Str) (now : Nat) : Except DbErr GoEvent × DB :=
  let tags0 := fields subject
  let tags1 := if tags0.length = 0 then [sl "untagged"] else tags0
  let tags := tags1.map goToLower
  let plainData :=
    match ExtractPlain h2t bodyData with
    | .error _ => bodyData
    | .ok s => s
  StoreEvent db ⟨tags, plainData, source⟩ now false

/-- Outcomes of the event-edit POST handler. -/
inductive EditOut where
  | fetchFailed
  | notFound
  | dataRequired
  | updateFailed (e : DbErr)
  | success
deriving DecidableEq, Repr

/-- The tag parsing of `HandleEditEventPost`: split the field on commas,
trim each entry, keep the non-empty ones. -/
def parseTagsField (s : Str) : List Str :=
  ((splitOnSub s [',']).map goTrimSpace).filter (fun t => ¬ t.isEmpty)

/-- Model of `web.WebHandler.HandleEditEventPost`
(internal/web/handlers.go) after URL-id and form parsing: fetch the
event, require a non-empty data field, overwrite data and source with
the form values, overwrite the tags only when the tags field parses to a
non-empty list (with the handler's re-fetch fallback when both the
current and submitted tags are empty), and save with `UpdateEvent`. -/
def HandleEditEventPost (db : DB) (id : Nat) (formData formTags formSource : Str) :
    EditOut × DB :=
  match GetEventByID db id with
  | .error _ => (.fetchFailed, db)
  | .ok none => (.notFound, db)
  | .ok (some ev) =>
    if formData.isEmpty then (.dataRequired, db)
    else
      let tags := parseTagsField formTags
      let ev1 : GoEvent :=
        { ev with
          data := formData
          tags := if tags.length > 0 then tags else ev.tags
          source := formSource }
      let ev2 :=
        if ev1.tags.length = 0 && formTags.length = 0 then
          match GetEventByID db id with
          | .ok (some orig) => if orig.tags.length > 0 then { ev1 with tags := orig.tags } else ev1
          | _ => ev1
        else ev1
      match UpdateEvent db ev2 with
      | (.error e, db') => (.updateFailed e, db')
      | (.ok _, db') => (.success, db')

/-! Model of internal/auth/auth.go.  The mutex only serialises access;
the model is the sequential behaviour.  bcrypt hashing and verification
are function parameters, the random session id is a parameter, and each
`time.Now()` group of one operation is modelled as one instant. -/

/-- `auth.User`. -/
structure GoUser where
  id : Nat
  username : String
  passwordHash : String
  role : String
  createdAt : Nat
deriving DecidableEq, Repr

/-- `auth.Session`. -/
structure GoSession where
  id : String
  userId : Nat
  createdAt : Nat
  expiresAt : Nat
deriving DecidableEq, Repr

/-- The two Go maps of `auth.Auth`, as association lists keyed by
username and session id. -/
structure AuthState where
  users : List (String × GoUser)
  sessions : List (String × GoSession)
deriving DecidableEq, Repr

/-- Go map read. -/
def lookupA {β : Type} (l : List (String × β)) (k : String) : Option β :=
  ((l.find? (fun p => p.1 = k)).map Prod.snd)

/-- Go map write: replace the entry when the key is present, append it
otherwise. -/
def putA {β : Type} (l : List (String × β)) (k : String) (v : β) : List (String × β) :=
  if (l.find? (fun p => p.1 = k)).isSome then
    l.map (fun p => if p.1 = k then (k, v) else p)
  else l ++ [(k, v)]

/-- Go map delete. -/
def eraseA {β : Type} (l : List (String × β)) (k : String) : List (String × β) :=
  l.filter (fun p => ¬ p.1 = k)

/-- `auth.New`. -/
def authNew : AuthState := ⟨[], []⟩

/-- Model of `Auth.CreateUser`: reject an existing username, otherwise
store a user whose id is the map size plus one.  `hashF` is
`bcrypt.GenerateFromPassword` (whose error branch the model has no way
to take). -/
def CreateUser (hashF : String → String) (st : AuthState)
    (username password role : String) (now : Nat) : Except String GoUser × AuthState :=
  match lookupA st.users username with
  | some _ => (.error "user already exists", st)
  | none =>
    let user : GoUser := ⟨st.users.length + 1, username, hashF password, role, now⟩
    (.ok user, { st with users := putA st.users username user })

/-- Model of `Auth.Authenticate`; `verify hash password` is
`bcrypt.CompareHashAndPassword` succeeding. -/
def Authenticate (verify : String → String → Bool) (st : AuthState)
    (username password : String) : Except String GoUser × AuthState :=
  match lookupA st.users username with
  | none => (.error "invalid username or password", st)
  | some user =>
    if verify user.passwordHash password then (.ok user, st)
    else (.error "invalid username or password", st)

/-- The 24-hour session lifetime, in the nanoseconds of
`time.Duration`. -/
def day24 : Nat := 24 * 60 * 60 * 1000000000

/-- Model of `Auth.CreateSession`: store a session expiring 24 hours
from now under the random id `sid`. -/
def CreateSession (st : AuthState) (uid : Nat) (sid : String) (now : Nat) :
    Except String GoSession × AuthState :=
  let session : GoSession := ⟨sid, uid, now, now + day24⟩
  (.ok session, { st with sessions := putA st.sessions sid session })

/-- Model of `Auth.GetSession`: unknown ids are "session not found";
a session whose expiry lies strictly before the current time is deleted
and reported as "session expired"; otherwise the session is returned. -/
def GetSession (st : AuthState) (sid : String) (now : Nat) :
    Except String GoSession × AuthState :=
  match lookupA st.sessions sid with
  | none => (.error "session not found", st)
  | some session =>
    if now > session.expiresAt then
      (.error "session expired", { st with sessions := eraseA st.sessions sid })
    else (.ok session, st)

/-- Model of `Auth.DeleteSession`. -/
def DeleteSession (st : AuthState) (sid : String) : AuthState :=
  { st with sessions := eraseA st.sessions sid }

/-- Model of `Auth.InitializeDefaultUsers`: create the admin user when
it does not exist yet, ignoring the result. -/
def seedDefaultUsers (hashF : String → String) (st : AuthState) (now : Nat) : AuthState :=
  match lookupA st.users "admin" with
  | some _ => st
  | none => (CreateUser hashF st "admin" "admin123" "admin" now).2

/-- The Auth states reachable from `auth.New()` by the exported
operations, with arbitrary call parameters (including the environment
parameters standing for bcrypt, the clock and the random ids). -/
inductive Reachable : AuthState → Prop where
  | init : Reachable authNew
  | createUser {st : AuthState} (hashF : String → String) (u p role : String) (now : Nat) :
      Reachable st → Reachable (CreateUser hashF st u p role now).2
  | authenticate {st : AuthState} (verify : String → String → Bool) (u p : String) :
      Reachable st → Reachable (Authenticate verify st u p).2
  | createSession {st : AuthState} (uid : Nat) (sid : String) (now : Nat) :
      Reachable st → Reachable (CreateSession st uid sid now).2
  | getSession {st : AuthState} (sid : String) (now : Nat) :
      Reachable st → Reachable (GetSession st sid now).2
  | deleteSession {st : AuthState} (sid : String) :
      Reachable st → Reachable (DeleteSession st sid)
  | seedDefaults {st : AuthState} (hashF : String → String) (now : Nat) :
      Reachable st → Reachable (seedDefaultUsers hashF st now)

/-! Helper lemmas. -/

theorem head?_dropWhile_false {α : Type} (p : α → Bool) (l : List α) (c : α)
    (h : (l.dropWhile p).head? = some c) : p c = false := by
  induction l with
  | nil => simp [List.dropWhile] at h
  | cons a t ih =>
    by_cases hpa : p a
    · rw [List.dropWhile_cons_of_pos hpa] at h
      exact ih h
    · rw [List.dropWhile_cons_of_neg hpa] at h
      simp at h
      subst h
      simpa using hpa

theorem trimRightIn_getLast? (cut s : Str) (c : Char)
    (h : (trimRightIn cut s).getLast? = some c) : cut.contains c = false := by
  unfold trimRightIn at h
  rw [List.getLast?_reverse] at h
  exact head?_dropWhile_false _ _ _ h

theorem trimRightIn_append (cut s : Str) :
    ∃ t, s = trimRightIn cut s ++ t ∧ ∀ c ∈ t, cut.contains c := by
  refine ⟨(s.reverse.takeWhile (fun c => cut.contains c)).reverse, ?_, ?_⟩
  · conv_lhs => rw [← s.reverse_reverse,
      ← List.takeWhile_append_dropWhile (p := fun c => cut.contains c) (l := s.reverse)]
    rw [List.reverse_append]
    rfl
  · intro c hc
    rw [List.mem_reverse] at hc
    exact List.mem_takeWhile_imp hc

theorem countP_ne_zero_of_find? {α : Type} (p : α → Bool) (l : List α) (x : α)
    (h : l.find? p = some x) : ¬ l.countP p = 0 := by
  rw [List.countP_eq_zero]
  push_neg
  exact ⟨x, List.mem_of_find?_eq_some h, List.find?_some h⟩

theorem lookupA_eraseA {β : Type} (l : List (String × β)) (k : String) :
    lookupA (eraseA l k) k = none := by
  unfold lookupA eraseA
  rw [Option.map_eq_none', List.find?_eq_none]
  intro p hp
  simp only [List.mem_filter] at hp
  simpa using hp.2

theorem putA_of_lookupA_none {β : Type} (l : List (String × β)) (k : String) (v : β)
    (h : lookupA l k = none) : putA l k v = l ++ [(k, v)] := by
  unfold lookupA at h
  rw [Option.map_eq_none'] at h
  unfold putA
  simp [h]

/-- C2: ExtractPlain returns the whitespace-trimmed input with no error
when the trimmed input does not begin with `--`, when it begins with
`--` but contains no newline, and when draining the multipart reader
stops with an error other than end of input. -/
theorem C2_theorem (h2t : Str → Except Unit Str) (data : Str) :
    (¬ startsWith (sl "--") (goTrimSpace data) →
      ExtractPlain h2t data = .ok (goTrimSpace data)) ∧
    (startsWith (sl "--") (goTrimSpace data) →
      idxOfChar '\n' (goTrimSpace data) = none →
      ExtractPlain h2t data = .ok (goTrimSpace data)) ∧
    (readAllParts (boundaryOf data) (goTrimSpace data) = .error () →
      ExtractPlain h2t data = .ok (goTrimSpace data)) := by
  refine ⟨fun h => by simp [ExtractPlain, h], fun h h2 => by simp [ExtractPlain, h, h2], ?_⟩
  intro herr
  by_cases hs : startsWith (sl "--") (goTrimSpace data)
  · cases hidx : idxOfChar '\n' (goTrimSpace data) with
    | none => simp [ExtractPlain, hs, hidx]
    | some i =>
      have hb : boundaryOf data = dropPre (sl "--") (goTrimSpace ((goTrimSpace data).take i)) := by
        simp [boundaryOf, hidx]
      rw [hb] at herr
      simp [ExtractPlain, hs, hidx, herr]
  · simp [ExtractPlain, hs]

/-- C2 witness: the three fallbacks at concrete inputs — plain text, a
dashed input without newline, and a multipart body whose first part has
a malformed header line. -/
theorem C2_witness :
    ExtractPlain (fun s => .ok s) (sl "hello") = .ok (sl "hello") ∧
    ExtractPlain (fun s => .ok s) (sl "--abc") = .ok (sl "--abc") ∧
    ExtractPlain (fun s => .ok s) (sl "--b\nBadHeader\n") = .ok (sl "--b\nBadHeader") := by
  refine ⟨(C2_theorem (fun s => .ok s) (sl "hello")).1 (by decide),
    (C2_theorem (fun s => .ok s) (sl "--abc")).2.1 (by decide) (by decide),
    (C2_theorem (fun s => .ok s) (sl "--b\nBadHeader\n")).2.2 (by rfl)⟩

/-- C4: CreateSession stores a session expiring exactly 24 hours after
its creation instant; GetSession returns a stored, unexpired session
unchanged, deletes and reports an expired one, and reports "session not
found" for unknown ids. -/
theorem C4_theorem (st : AuthState) (sid : String) (now : Nat) :
    (∀ uid sid' now', (CreateSession st uid sid' now').1 =
      .ok ⟨sid', uid, now', now' + day24⟩) ∧
    (∀ s, lookupA st.sessions sid = some s →
      (¬ now > s.expiresAt → GetSession st sid now = (.ok s, st)) ∧
      (now > s.expiresAt →
        GetSession st sid now =
          (.error "session expired", { st with sessions := eraseA st.sessions sid }) ∧
        lookupA (eraseA st.sessions sid) sid = none)) ∧
    (lookupA st.sessions sid = none →
      GetSession st sid now = (.error "session not found", st)) := by
  refine ⟨fun uid sid' now' => rfl, fun s hs => ⟨fun hexp => ?_, fun hexp => ?_⟩, fun hn => ?_⟩
  · simp [GetSession, hs, hexp]
  · exact ⟨by simp [GetSession, hs, hexp], lookupA_eraseA _ _⟩
  · simp [GetSession, hn]

/-- C4 witness: a freshly created session is returned before its expiry,
deleted and reported expired after it, and a never-created id is not
found. -/
theorem C4_witness :
    (CreateSession authNew 7 "sid1" 100).1 = .ok ⟨"sid1", 7, 100, 100 + day24⟩ ∧
    GetSession (CreateSession authNew 7 "sid1" 100).2 "sid1" 500 =
      (.ok ⟨"sid1", 7, 100, 100 + day24⟩, (CreateSession authNew 7 "sid1" 100).2) ∧
    GetSession (CreateSession authNew 7 "sid1" 100).2 "sid1" (101 + day24) =
      (.error "session expired",
        { (CreateSession authNew 7 "sid1" 100).2 with
          sessions := eraseA (CreateSession authNew 7 "sid1" 100).2.sessions "sid1" }) ∧
    GetSession authNew "nope" 0 = (.error "session not found", authNew) := by
  refine ⟨(C4_theorem authNew "sid1" 0).1 7 "sid1" 100,
    ((C4_theorem (CreateSession authNew 7 "sid1" 100).2 "sid1" 500).2.1
      ⟨"sid1", 7, 100, 100 + day24⟩ (by rfl)).1 (by decide),
    (((C4_theorem (CreateSession authNew 7 "sid1" 100).2 "sid1" (101 + day24)).2.1
      ⟨"sid1", 7, 100, 100 + day24⟩ (by rfl)).2 (by decide)).1,
    (C4_theorem authNew "nope" 0).2.2 (by rfl)⟩

/-- C9: Authenticate leaves the whole state unchanged and reports the
same "invalid username or password" error both for an unknown username
and for a stored user whose password check fails, so the error does not
reveal whether the username exists. -/
theorem C9_theorem (verify : String → String → Bool) (st : AuthState) (u p : String) :
    (Authenticate verify st u p).2 = st ∧
    (lookupA st.users u = none →
      (Authenticate verify st u p).1 = .error "invalid username or password") ∧
    (∀ usr, lookupA st.users u = some usr → ¬ verify usr.passwordHash p →
      (Authenticate verify st u p).1 = .error "invalid username or password") := by
  unfold Authenticate
  cases h : lookupA st.users u with
  | none => simp [h]
  | some usr =>
    refine ⟨?_, by simp, ?_⟩
    · by_cases hv : verify usr.passwordHash p <;> simp [hv]
    · intro usr' husr' hv
      obtain rfl : usr = usr' := by simpa [h] using husr'
      simp [hv]

/-- C9 witness: both failure shapes at concrete states — unknown user
on the empty store, and a stored user with a failing password check —
produce the identical error, with the state untouched. -/
theorem C9_witness :
    (Authenticate (fun _ _ => false) authNew "alice" "pw").1 =
      .error "invalid username or password" ∧
    (Authenticate (fun _ _ => false)
        (CreateUser (fun _ => "h") authNew "alice" "pw" "user" 0).2 "alice" "pw").1 =
      .error "invalid username or password" ∧
    (Authenticate (fun _ _ => false)
        (CreateUser (fun _ => "h") authNew "alice" "pw" "user" 0).2 "alice" "pw").2 =
      (CreateUser (fun _ => "h") authNew "alice" "pw" "user" 0).2 := by
  refine ⟨(C9_theorem (fun _ _ => false) authNew "alice" "pw").2.1 (by rfl),
    (C9_theorem (fun _ _ => false) _ "alice" "pw").2.2 ⟨1, "alice", "h", "user", 0⟩
      (by rfl) (by decide),
    (C9_theorem (fun _ _ => false) _ "alice" "pw").1⟩

theorem LogEventStatus_events (db : DB) (i : Nat) (s e : Str) :
    (LogEventStatus db i s e).events = db.events := by
  unfold LogEventStatus
  split <;> rfl

theorem LogEventStatus_nextId (db : DB) (i : Nat) (s e : Str) :
    (LogEventStatus db i s e).nextId = db.nextId := by
  unfold LogEventStatus
  split <;> rfl

theorem StoreEvent_ok (db : DB) (req : EventRequest) (now : Nat) :
    (StoreEvent db req now false).1 =
      .ok ⟨db.nextId, req.tags, trimRightIn (sl "\r\n") req.data, req.source, now⟩ ∧
    (StoreEvent db req now false).2.events =
      db.events ++
        [⟨db.nextId, jsonEnc req.tags, trimRightIn (sl "\r\n") req.data, req.source, now⟩] ∧
    (StoreEvent db req now false).2.nextId = db.nextId + 1 := by
  refine ⟨rfl, ?_, ?_⟩
  · rw [show (StoreEvent db req now false).2 =
      LogEventStatus
        { db with
          events := db.events ++
            [⟨db.nextId, jsonEnc req.tags, trimRightIn (sl "\r\n") req.data, req.source, now⟩]
          nextId := db.nextId + 1 }
        db.nextId (sl "success") [] from rfl, LogEventStatus_events]
  · rw [show (StoreEvent db req now false).2 =
      LogEventStatus
        { db with
          events := db.events ++
            [⟨db.nextId, jsonEnc req.tags, trimRightIn (sl "\r\n") req.data, req.source, now⟩]
          nextId := db.nextId + 1 }
        db.nextId (sl "success") [] from rfl, LogEventStatus_nextId]

/-- C5: the tags stored by HandleEventReceive are exactly the
whitespace-separated words of the subject, lower-cased, in order, with
the single tag `untagged` when the subject has no words; the stored row
carries their JSON encoding. -/
theorem C5_theorem (h2t : Str → Except Unit Str) (db : DB)
    (subject bodyData source : Str) (now : Nat) :
    ∃ ev, (HandleEventReceive h2t db subject bodyData source now).1 = .ok ev ∧
      ev.tags =
        (if fields subject = [] then [sl "untagged"]
         else (fields subject).map goToLower) ∧
      (HandleEventReceive h2t db subject bodyData source now).2.events =
        db.events ++ [⟨db.nextId, jsonEnc ev.tags, ev.data, source, now⟩] := by
  obtain ⟨h1, h2, _⟩ := StoreEvent_ok db
    ⟨(if (fields subject).length = 0 then [sl "untagged"] else fields subject).map goToLower,
      (match ExtractPlain h2t bodyData with
        | .error _ => bodyData
        | .ok s => s),
      source⟩ now
  refine ⟨_, h1, ?_, h2⟩
  cases hf : fields subject with
  | nil => simp [hf]; rfl
  | cons a t => simp [hf]

/-- C6: StoreEvent appends exactly one row, with the JSON-encoded tags,
the request's source, and the request's data stripped of trailing CR/LF;
on success the returned event has the assigned id, the original tags and
source, and the trimmed data; on failure nothing is returned and no row
is added. -/
theorem C6_theorem (db : DB) (req : EventRequest) (now : Nat) :
    (∃ ev, (StoreEvent db req now false).1 = .ok ev ∧
      (StoreEvent db req now false).2.events =
        db.events ++ [⟨db.nextId, jsonEnc req.tags, ev.data, req.source, now⟩] ∧
      ev.id = db.nextId ∧ ev.tags = req.tags ∧ ev.source = req.source ∧
      (∃ t, req.data = ev.data ++ t ∧ ∀ c ∈ t, c = '\r' ∨ c = '\n') ∧
      (∀ c, ev.data.getLast? = some c → ¬ (c = '\r' ∨ c = '\n'))) ∧
    (∀ ev, (StoreEvent db req now true).1 ≠ .ok ev) ∧
    (StoreEvent db req now true).2.events = db.events := by
  obtain ⟨h1, h2, _⟩ := StoreEvent_ok db req now
  refine ⟨⟨_, h1, h2, rfl, rfl, rfl, ?_, ?_⟩, ?_, rfl⟩
  · obtain ⟨t, ht, hall⟩ := trimRightIn_append (sl "\r\n") req.data
    refine ⟨t, ht, fun c hc => ?_⟩
    have := hall c hc
    simpa [sl, List.contains] using this
  · intro c hc
    have := trimRightIn_getLast? (sl "\r\n") req.data c hc
    simpa [sl, List.contains] using this
  · intro ev h
    exact absurd h (by simp [StoreEvent])

theorem DeleteEvent_cases (db : DB) (id : Nat) (txf : Option TxFail) :
    (txf = none ∧ ¬ db.events.countP (fun r => r.id = id) = 0 ∧
      DeleteEvent db id txf =
        (.ok (),
          { db with
            events := db.events.filter (fun r => ¬ r.id = id)
            logs := db.logs.filter (fun l => ¬ l.eventId = id) })) ∨
    (∃ e, DeleteEvent db id txf = (.error e, db)) := by
  rcases txf with _ | f
  · by_cases hc : db.events.countP (fun r => r.id = id) = 0
    · exact .inr ⟨.eventNotFound id, by simp [DeleteEvent, hc]⟩
    · exact .inl ⟨rfl, hc, by simp [DeleteEvent, hc]⟩
  · cases f
    · exact .inr ⟨.beginFailed, by simp [DeleteEvent]⟩
    · exact .inr ⟨.deleteLogsFailed, by simp [DeleteEvent]⟩
    · exact .inr ⟨.deleteEventFailed, by simp [DeleteEvent]⟩
    · by_cases hc : db.events.countP (fun r => r.id = id) = 0
      · exact .inr ⟨.eventNotFound id, by simp [DeleteEvent, hc]⟩
      · exact .inr ⟨.commitFailed, by simp [DeleteEvent, hc]⟩

/-- C7: DeleteEvent removes the event row and every event_logs row
referencing it in one transaction; a missing event id yields the
"event not found" error; and every error path rolls back, leaving the
store exactly as it was. -/
theorem C7_theorem (db : DB) (id : Nat) (txf : Option TxFail) :
    (∀ e db', DeleteEvent db id txf = (.error e, db') → db' = db) ∧
    ((DeleteEvent db id txf).1 = .ok () →
      (DeleteEvent db id txf).2.events = db.events.filter (fun r => ¬ r.id = id) ∧
      (DeleteEvent db id txf).2.logs = db.logs.filter (fun l => ¬ l.eventId = id) ∧
      (∀ r ∈ (DeleteEvent db id txf).2.events, ¬ r.id = id) ∧
      (∀ l ∈ (DeleteEvent db id txf).2.logs, ¬ l.eventId = id)) ∧
    (txf = none → (∀ r ∈ db.events, ¬ r.id = id) →
      DeleteEvent db id txf = (.error (.eventNotFound id), db)) ∧
    (txf = none → ∀ r ∈ db.events, r.id = id → (DeleteEvent db id txf).1 = .ok ()) := by
  have hcases := DeleteEvent_cases db id txf
  refine ⟨?_, ?_, ?_, ?_⟩
  · intro e db' h
    rcases hcases with ⟨-, -, heq⟩ | ⟨e0, heq⟩
    · rw [heq] at h
      exact absurd (congrArg Prod.fst h) (by simp)
    · rw [heq] at h
      simpa using (congrArg Prod.snd h).symm
  · intro hok
    rcases hcases with ⟨-, -, heq⟩ | ⟨e0, heq⟩
    · rw [heq]
      refine ⟨rfl, rfl, ?_, ?_⟩
      · intro r hr
        simp only [heq] at hr
        simpa using (List.mem_filter.mp hr).2
      · intro l hl
        simp only [heq] at hl
        simpa using (List.mem_filter.mp hl).2
    · rw [heq] at hok
      exact absurd hok (by simp)
  · intro h0 hn
    subst h0
    have hc : db.events.countP (fun r => r.id = id) = 0 :=
      List.countP_eq_zero.mpr (fun a ha => by simpa using hn a ha)
    simp [DeleteEvent, hc]
  · intro h0 r hr hrid
    subst h0
    have hc : ¬ db.events.countP (fun r => r.id = id) = 0 := by
      have hpos : 0 < db.events.countP (fun r => r.id = id) :=
        List.countP_pos_iff.mpr ⟨r, hr, by simpa using hrid⟩
      omega
    simp [DeleteEvent, hc]

/-- Sample database used by the concrete witnesses: two events with one
log row each. -/
def dbSample : DB :=
  ⟨[⟨1, sl "[\"a\"]", sl "d1", sl "s1", 10⟩, ⟨2, sl "[\"b\"]", sl "d2", sl "s2", 20⟩],
    [⟨1, sl "success", []⟩, ⟨2, sl "success", []⟩], 3⟩

/-- C6 witness: storing a request whose data carries a trailing CRLF at
a concrete database appends one row with trimmed data and JSON tags. -/
theorem C6_witness :
    (StoreEvent dbSample ⟨[sl "alert"], sl "hello\r\n", sl "mail"⟩ 30 false).1 =
      .ok ⟨3, [sl "alert"], sl "hello", sl "mail", 30⟩ ∧
    (StoreEvent dbSample ⟨[sl "alert"], sl "hello\r\n", sl "mail"⟩ 30 false).2.events =
      dbSample.events ++ [⟨3, sl "[\"alert\"]", sl "hello", sl "mail", 30⟩] ∧
    (StoreEvent dbSample ⟨[sl "alert"], sl "hello\r\n", sl "mail"⟩ 30 true).2.events =
      dbSample.events := by
  obtain ⟨⟨ev, h1, h2, -⟩, -, h3⟩ :=
    C6_theorem dbSample ⟨[sl "alert"], sl "hello\r\n", sl "mail"⟩ 30
  have hc : (StoreEvent dbSample ⟨[sl "alert"], sl "hello\r\n", sl "mail"⟩ 30 false).1 =
      .ok ⟨3, [sl "alert"], sl "hello", sl "mail", 30⟩ := by rfl
  obtain rfl : ev = ⟨3, [sl "alert"], sl "hello", sl "mail", 30⟩ :=
    Except.ok.inj (h1.symm.trans hc)
  refine ⟨hc, ?_, h3⟩
  rw [h2]
  exact congrArg (dbSample.events ++ ·) (by decide)

/-- C7 witness: deleting event 1 of the sample database removes its row
and its log row and nothing else; deleting a missing id reports the
not-found error and leaves the database untouched. -/
theorem C7_witness :
    (DeleteEvent dbSample 1 none).2.events = [⟨2, sl "[\"b\"]", sl "d2", sl "s2", 20⟩] ∧
    (DeleteEvent dbSample 1 none).2.logs = [⟨2, sl "success", []⟩] ∧
    DeleteEvent dbSample 5 none = (.error (.eventNotFound 5), dbSample) := by
  obtain ⟨he, hl, -, -⟩ := (C7_theorem dbSample 1 none).2.1 (by rfl)
  refine ⟨?_, ?_, (C7_theorem dbSample 5 none).2.2.1 rfl (by decide)⟩
  · rw [he]; rfl
  · rw [hl]; rfl

theorem Authenticate_snd (verify : String → String → Bool) (st : AuthState) (u p : String) :
    (Authenticate verify st u p).2 = st := by
  unfold Authenticate
  cases h : lookupA st.users u with
  | none => rfl
  | some usr => by_cases hv : verify usr.passwordHash p <;> simp [hv]

theorem GetSession_users (st : AuthState) (sid : String) (now : Nat) :
    ((GetSession st sid now).2).users = st.users := by
  unfold GetSession
  cases h : lookupA st.sessions sid with
  | none => rfl
  | some s => by_cases hexp : now > s.expiresAt <;> simp [hexp]

theorem CreateUser_ids (hashF : String → String) (st : AuthState)
    (u p role : String) (now : Nat)
    (hst : st.users.map (fun q => q.2.id) = List.range' 1 st.users.length) :
    ((CreateUser hashF st u p role now).2).users.map (fun q => q.2.id) =
      List.range' 1 ((CreateUser hashF st u p role now).2).users.length := by
  unfold CreateUser
  cases hl : lookupA st.users u with
  | some usr => simpa using hst
  | none =>
    simp only
    rw [putA_of_lookupA_none _ _ _ hl]
    simp only [List.map_append, List.length_append, List.map_cons, List.map_nil,
      List.length_cons, List.length_nil, hst]
    rw [List.range'_concat]
    simp [Nat.add_comm]

theorem reachable_users_ids {st : AuthState} (h : Reachable st) :
    st.users.map (fun q => q.2.id) = List.range' 1 st.users.length := by
  induction h with
  | init => rfl
  | createUser hashF u p role now _ ih => exact CreateUser_ids hashF _ u p role now ih
  | authenticate verify u p _ ih => rw [Authenticate_snd]; exact ih
  | createSession uid sid now _ ih => exact ih
  | getSession sid now _ ih => rw [GetSession_users]; exact ih
  | deleteSession sid _ ih => exact ih
  | @seedDefaults st' hashF now _ ih =>
    unfold seedDefaultUsers
    cases hl : lookupA st'.users "admin" with
    | some usr => exact ih
    | none => exact CreateUser_ids hashF st' "admin" "admin123" "admin" now ih

/-- C10: in every reachable auth state the stored user ids are pairwise
distinct; creating an existing username fails and changes nothing, and a
successful CreateUser appends exactly one user whose id is the resulting
number of users, leaving every existing user untouched. -/
theorem C10_theorem (st : AuthState) (h : Reachable st) :
    ((st.users.map (fun q => q.2.id)).Nodup) ∧
    (∀ (hashF : String → String) (u p role : String) (now : Nat),
      (lookupA st.users u ≠ none →
        CreateUser hashF st u p role now = (.error "user already exists", st)) ∧
      (lookupA st.users u = none →
        ∃ usr, CreateUser hashF st u p role now =
            (.ok usr, { st with users := st.users ++ [(u, usr)] }) ∧
          usr.id = st.users.length + 1 ∧
          usr.id = (st.users ++ [(u, usr)]).length)) := by
  refine ⟨?_, ?_⟩
  · rw [reachable_users_ids h]
    exact List.nodup_range' 1 _
  · intro hashF u p role now
    constructor
    · intro hne
      unfold CreateUser
      cases hl : lookupA st.users u with
      | none => exact absurd hl hne
      | some usr => rfl
    · intro hl
      refine ⟨⟨st.users.length + 1, u, hashF p, role, now⟩, ?_, rfl, by simp⟩
      unfold CreateUser
      simp only [hl]
      rw [putA_of_lookupA_none _ _ _ hl]

/-- C10 witness: a concrete two-step reachable state has distinct ids,
re-creating the same username fails, and a fresh username gets id 2 in
a store of 2 users. -/
theorem C10_witness :
    ((((CreateUser (fun _ => "h") authNew "a" "p" "user" 0).2).users.map
        (fun q => q.2.id)).Nodup) ∧
    (CreateUser (fun _ => "g")
        (CreateUser (fun _ => "h") authNew "a" "p" "user" 0).2 "a" "q" "user" 1).1 =
      .error "user already exists" ∧
    (∃ usr, (CreateUser (fun _ => "g")
        (CreateUser (fun _ => "h") authNew "a" "p" "user" 0).2 "b" "q" "user" 1).1 =
      .ok usr ∧ usr.id = 2) := by
  have h1 : Reachable (CreateUser (fun _ => "h") authNew "a" "p" "user" 0).2 :=
    .createUser _ _ _ _ _ .init
  refine ⟨(C10_theorem _ h1).1, ?_, ?_⟩
  · have h2 := ((C10_theorem _ h1).2 (fun _ => "g") "a" "q" "user" 1).1 (by decide)
    rw [h2]
  · obtain ⟨usr, heq, hid, -⟩ :=
      ((C10_theorem _ h1).2 (fun _ => "g") "b" "q" "user" 1).2 (by decide)
    exact ⟨usr, by rw [heq], hid⟩

theorem inlineFold_mem (secs : List Str) (acc : List Str) (p : Str)
    (hp : p ∈ secs.foldl inlineStep acc) :
    p ∈ acc ∨ ∃ sec ∈ secs, inlineSection sec = some p ∧ ¬ p.isEmpty := by
  induction secs generalizing acc with
  | nil => exact .inl hp
  | cons s t ih =>
    rw [List.foldl_cons] at hp
    rcases ih (inlineStep acc s) hp with hacc | ⟨sec, hsec, h1, h2⟩
    · unfold inlineStep at hacc
      cases hio : inlineSection s with
      | none => rw [hio] at hacc; exact .inl hacc
      | some c =>
        rw [hio] at hacc
        have hacc' : p ∈ (if ¬ c.isEmpty then acc ++ [c] else acc) := hacc
        by_cases hce : c.isEmpty
        · rw [if_neg (by simpa using hce)] at hacc'
          exact .inl hacc'
        · rw [if_pos (by simpa using hce)] at hacc'
          rcases List.mem_append.mp hacc' with h | h
          · exact .inl h
          · obtain rfl : p = c := by simpa using h
            exact .inr ⟨s, List.mem_cons_self _ _, hio, hce⟩
    · exact .inr ⟨sec, List.mem_cons_of_mem _ hsec, h1, h2⟩

theorem inlineSection_some (sec p : Str) (h : inlineSection sec = some p) :
    ¬ (goTrimSpace sec).isEmpty ∧ ¬ endsWith (sl "--") (goTrimSpace sec) ∧
    ¬ containsSub (goToLower (goTrimSpace sec)) (sl "content-disposition: attachment") ∧
    ∃ c0, p = cleanMessageContent c0 := by
  unfold inlineSection at h
  by_cases h1 : (goTrimSpace sec).isEmpty || endsWith (sl "--") (goTrimSpace sec)
  · rw [if_pos h1] at h
    exact absurd h (by simp)
  · rw [if_neg h1] at h
    by_cases h2 : containsSub (goToLower (goTrimSpace sec)) (sl "content-disposition: attachment")
    · rw [if_pos h2] at h
      exact absurd h (by simp)
    · rw [if_neg h2] at h
      have h1' := h1
      simp only [Bool.or_eq_true, not_or] at h1'
      exact ⟨by simpa using h1'.1, by simpa using h1'.2, h2, _, (Option.some.inj h).symm⟩

theorem cleanMessageContent_trim (c : Str) :
    ∃ x, cleanMessageContent c = trimRightIn (sl "\r\n \t=") x :=
  ⟨_, rfl⟩

/-- C3 (amended): every string returned by ExtractInlineMIMEParts comes
from a whitespace-trimmed section of the split that is non-empty, is not
the closing section, and does not contain the attachment disposition
case-insensitively; the returned string is the cleaned content of that
section (content after the first blank line, quoted-printable decoded
when the section declares it and, inside cleanMessageContent, decoded
once more when the text still contains `=` before a line break, iPhone
signature lines removed); and it is non-empty with no trailing space,
tab, CR, LF or `=`. -/
theorem C3_theorem (body boundary p : Str) (hp : p ∈ ExtractInlineMIMEParts body boundary) :
    ∃ sec ∈ splitOnSub body (sl "--" ++ boundary),
      ¬ (goTrimSpace sec).isEmpty ∧
      ¬ endsWith (sl "--") (goTrimSpace sec) ∧
      ¬ containsSub (goToLower (goTrimSpace sec)) (sl "content-disposition: attachment") ∧
      inlineSection sec = some p ∧
      ¬ p.isEmpty ∧
      (∀ c, p.getLast? = some c → (sl "\r\n \t=").contains c = false) := by
  unfold ExtractInlineMIMEParts at hp
  rcases inlineFold_mem _ _ _ hp with hnil | ⟨sec, hsec, hio, hne⟩
  · exact absurd hnil (List.not_mem_nil p)
  obtain ⟨hs1, hs2, hs3, c0, hc0⟩ := inlineSection_some sec p hio
  refine ⟨sec, hsec, hs1, hs2, hs3, hio, hne, fun c hc => ?_⟩
  obtain ⟨x, hx⟩ := cleanMessageContent_trim c0
  rw [hc0, hx] at hc
  exact trimRightIn_getLast? _ _ _ hc

/-- The pipeline stated by the claim for one section, word for word:
content after the first blank line, quoted-printable decoding only when
the section declares it, iPhone signature lines removed, and the final
trailing trim; written from the claim sentence, to be compared with
`inlineSection`, which is translated from the code. -/
def claimC3Pipe (sec : Str) : Str :=
  let s := goTrimSpace sec
  let isQP := containsSub (goToLower s) (sl "content-transfer-encoding: quoted-printable")
  let content :=
    match occurIdx (sl "\r\n\r\n") s with
    | some i => s.drop (i + 4)
    | none =>
      match occurIdx (sl "\n\n") s with
      | some i => s.drop (i + 2)
      | none => []
  let content := goTrimSpace content
  let content :=
    if isQP then
      let d := qpDecode content
      if d.2 then d.1 else content
    else content
  trimRightIn (sl "\r\n \t=")
    (joinSep (sl "\r\n")
      ((splitOnSub content (sl "\r\n")).filter
        (fun l => ¬ containsSub l (sl "Sent from my iPhone"))))

/-- The claim C3 as stated: every returned part equals the
single-decode pipeline of some attachment-free section. -/
def claimC3 : Prop :=
  ∀ body boundary p, p ∈ ExtractInlineMIMEParts body boundary →
    ∃ sec ∈ splitOnSub body (sl "--" ++ boundary),
      ¬ containsSub (goToLower sec) (sl "content-disposition: attachment") ∧
      p = claimC3Pipe sec ∧ ¬ p.isEmpty

/-- C3 counterexample: the section `X: y`, blank line, `A=`, `B` does
not declare quoted-printable, yet cleanMessageContent decodes it anyway
because the text contains `=` before a line feed, so the returned part
is `AB` while the claimed pipeline keeps `A=` and `B` as two lines. -/
theorem C3_counterexample : ¬ claimC3 := by
  intro h
  obtain ⟨sec, hsec, -, hpipe, -⟩ :=
    h (sl "--b\nX: y\n\nA=\nB\n--b--") (sl "b") (sl "AB") (by decide)
  have hs : splitOnSub (sl "--b\nX: y\n\nA=\nB\n--b--") (sl "--" ++ sl "b") =
      [[], sl "\nX: y\n\nA=\nB\n", sl "--"] := by decide
  rw [hs] at hsec
  simp only [List.mem_cons, List.not_mem_nil, or_false] at hsec
  rcases hsec with rfl | rfl | rfl
  · exact absurd hpipe (by decide)
  · exact absurd hpipe (by decide)
  · exact absurd hpipe (by decide)

set_option maxRecDepth 8000 in
/-- C3 witness: a concrete two-part body, one part an attachment, the
other quoted-printable; the returned part is traced to its section with
all the amended properties. -/
theorem C3_witness :
    sl "Hi there" ∈
      ExtractInlineMIMEParts
        (sl "--bd\r\nContent-Transfer-Encoding: quoted-printable\r\n\r\nHi=20there \r\n--bd\r\nContent-Disposition: attachment\r\n\r\nPAYLOAD\r\n--bd--")
        (sl "bd") ∧
    ∃ sec ∈ splitOnSub
        (sl "--bd\r\nContent-Transfer-Encoding: quoted-printable\r\n\r\nHi=20there \r\n--bd\r\nContent-Disposition: attachment\r\n\r\nPAYLOAD\r\n--bd--")
        (sl "--" ++ sl "bd"),
      inlineSection sec = some (sl "Hi there") ∧
      (∀ c, (sl "Hi there").getLast? = some c → (sl "\r\n \t=").contains c = false) := by
  have hmem : sl "Hi there" ∈
      ExtractInlineMIMEParts
        (sl "--bd\r\nContent-Transfer-Encoding: quoted-printable\r\n\r\nHi=20there \r\n--bd\r\nContent-Disposition: attachment\r\n\r\nPAYLOAD\r\n--bd--")
        (sl "bd") := by decide
  obtain ⟨sec, hsec, -, -, -, hio, -, hlast⟩ := C3_theorem _ _ _ hmem
  exact ⟨hmem, sec, hsec, hio, hlast⟩

/-- Content-Type test for the parts that update the `html` accumulator
of the `ExtractPlain` loop: the `text/html` case of the switch is only
reached when the `text/plain` case did not match. -/
def htmlOnlyCT (p : MPart) : Bool := htmlCT p && ¬ plainCT p

/-- Body of the last part satisfying the test, or empty when none
does. -/
def lastBodyWith (f : MPart → Bool) (parts : List MPart) : Str :=
  match (parts.filter f).getLast? with
  | none => []
  | some p => p.body

theorem lastBodyWith_append (f : MPart → Bool) (l : List MPart) (p : MPart) :
    lastBodyWith f (l ++ [p]) = if f p then p.body else lastBodyWith f l := by
  unfold lastBodyWith
  rw [List.filter_append]
  by_cases hf : f p <;> simp [hf]

theorem partsAccum_spec (parts : List MPart) :
    partsAccum parts = (lastBodyWith plainCT parts, lastBodyWith htmlOnlyCT parts) := by
  induction parts using List.reverseRecOn with
  | nil => rfl
  | append_singleton l p ih =>
    have hstep : partsAccum (l ++ [p]) =
        (if plainCT p then ((partsAccum l).2, p.body).swap
         else if htmlCT p then ((partsAccum l).1, p.body)
         else partsAccum l) := by
      unfold partsAccum
      rw [List.foldl_append]
      by_cases hp : plainCT p
      · simp [hp, Prod.swap]
      · by_cases hh : htmlCT p <;> simp [hp, hh]
    rw [hstep, ih, lastBodyWith_append, lastBodyWith_append]
    by_cases hp : plainCT p
    · simp [hp, htmlOnlyCT, Prod.swap]
    · by_cases hh : htmlCT p <;> simp [hp, hh, htmlOnlyCT]

/-- C1 (amended): for a `--`-prefixed input with a newline whose
multipart drain succeeds, ExtractPlain returns the trimmed body of the
last text/plain part provided that body is non-empty; when it is empty
(in particular when there is no text/plain part) and the body of the
last text/html part (among parts not already counted as text/plain) is
non-empty, it returns that body's html-to-text conversion, trimmed,
propagating a conversion error; and when both are empty it returns the
empty string with no error. -/
theorem C1_theorem (h2t : Str → Except Unit Str) (data : Str) (parts : List MPart)
    (h1 : startsWith (sl "--") (goTrimSpace data))
    (h2 : (idxOfChar '\n' (goTrimSpace data)).isSome)
    (h3 : readAllParts (boundaryOf data) (goTrimSpace data) = .ok parts) :
    (¬ (lastBodyWith plainCT parts).isEmpty →
      ExtractPlain h2t data = .ok (goTrimSpace (lastBodyWith plainCT parts))) ∧
    ((lastBodyWith plainCT parts).isEmpty → ¬ (lastBodyWith htmlOnlyCT parts).isEmpty →
      ExtractPlain h2t data = (h2t (lastBodyWith htmlOnlyCT parts)).map goTrimSpace) ∧
    ((lastBodyWith plainCT parts).isEmpty → (lastBodyWith htmlOnlyCT parts).isEmpty →
      ExtractPlain h2t data = .ok []) := by
  obtain ⟨i, hi⟩ := Option.isSome_iff_exists.mp h2
  have hb : boundaryOf data = dropPre (sl "--") (goTrimSpace ((goTrimSpace data).take i)) := by
    simp [boundaryOf, hi]
  rw [hb] at h3
  have hmain : ExtractPlain h2t data =
      (if ¬ (partsAccum parts).1.isEmpty then .ok (goTrimSpace (partsAccum parts).1)
       else if ¬ (partsAccum parts).2.isEmpty then (h2t (partsAccum parts).2).map goTrimSpace
       else .ok []) := by
    simp only [ExtractPlain, h1, hi, h3]
    simp
  rw [partsAccum_spec] at hmain
  refine ⟨fun hp => ?_, fun hp hh => ?_, fun hp hh => ?_⟩
  · rw [hmain]
    simp [hp]
  · rw [hmain]
    simp [hp, hh]
  · rw [hmain]
    simp [hp, hh]

/-- The claim C1 as stated: the branch taken is decided by the mere
presence of a text/plain (resp. text/html) part, and the plain branch
returns the trimmed body of the last text/plain part unconditionally. -/
def claimC1 : Prop :=
  ∀ (h2t : Str → Except Unit Str) (data : Str) (parts : List MPart),
    startsWith (sl "--") (goTrimSpace data) →
    (idxOfChar '\n' (goTrimSpace data)).isSome →
    readAllParts (boundaryOf data) (goTrimSpace data) = .ok parts →
    ((parts.any plainCT →
        ExtractPlain h2t data = .ok (goTrimSpace (lastBodyWith plainCT parts))) ∧
     (¬ parts.any plainCT → parts.any htmlCT →
        ExtractPlain h2t data = (h2t (lastBodyWith htmlCT parts)).map goTrimSpace) ∧
     (¬ parts.any plainCT → ¬ parts.any htmlCT → ExtractPlain h2t data = .ok []))

/-- The multipart input refuting C1 as stated: a text/plain part with an
empty body followed by a text/html part. -/
def c1data : Str :=
  sl "--b\nContent-Type: text/plain\n\n--b\nContent-Type: text/html\n\nHello world\n--b--"

/-- C1 counterexample: on `c1data` the drain yields a text/plain part
with empty body and a text/html part with body `Hello world`; the claim
then demands the empty string, but ExtractPlain falls through to the
html branch and returns `Hello world` (shown with the identity
conversion, which is what html2text does to tag-free text). -/
theorem C1_counterexample :
    ¬ claimC1 ∧
    ExtractPlain (fun s => .ok s) c1data = .ok (sl "Hello world") := by
  have hval : ExtractPlain (fun s => .ok s) c1data = .ok (sl "Hello world") := by rfl
  refine ⟨?_, hval⟩
  intro h
  have h3 : readAllParts (boundaryOf c1data) (goTrimSpace c1data) =
      .ok [⟨sl "text/plain", []⟩, ⟨sl "text/html", sl "Hello world"⟩] := by rfl
  have hcl := (h (fun s => .ok s) c1data
      [⟨sl "text/plain", []⟩, ⟨sl "text/html", sl "Hello world"⟩]
      (by decide) (by decide) h3).1 (by decide)
  rw [hval] at hcl
  exact absurd (Except.ok.inj hcl) (by decide)

/-- A well-behaved multipart input for the C1 witness. -/
def c1good : Str := sl "--b\nContent-Type: text/plain\n\nHi Bob\n--b--\n"

/-- C1 witness: on a multipart body with one non-empty text/plain part
the amended claim yields exactly that trimmed body. -/
theorem C1_witness :
    ExtractPlain (fun s => .ok s) c1good = .ok (sl "Hi Bob") := by
  have h := (C1_theorem (fun s => .ok s) c1good [⟨sl "text/plain", sl "Hi Bob"⟩]
      (by decide) (by decide) (by rfl)).1 (by decide)
  exact h.trans (congrArg Except.ok (by decide))

theorem UpdateEvent_found (db : DB) (ev : GoEvent) (r0 : EventRow)
    (hfind : db.events.find? (fun r => r.id = ev.id) = some r0) :
    UpdateEvent db ev =
      (.ok (),
        LogEventStatus
          { db with
            events := db.events.map (fun r =>
              if r.id = ev.id then
                { r with
                  tagsJson := jsonEnc ev.tags
                  data := trimRightIn (sl "\r\n") ev.data
                  source := ev.source }
              else r) }
          ev.id (sl "updated") []) := by
  unfold UpdateEvent
  rw [if_neg (countP_ne_zero_of_find? _ _ _ hfind)]

/-- C8 (amended): editing an existing event with a non-empty data field
stores the submitted data with trailing CR and LF removed, stores the
submitted source, and replaces the tags by the comma-separated trimmed
non-empty entries of the tags field when there is at least one such
entry, keeping the previous tag list otherwise (in particular for an
empty tags field); every other row and the id sequence are untouched. -/
theorem C8_theorem (db : DB) (id : Nat) (d ts src : Str) (r0 : EventRow) (T0 : List Str)
    (hfind : db.events.find? (fun r => r.id = id) = some r0)
    (hdec : jsonDec r0.tagsJson = some T0)
    (hd : ¬ d.isEmpty) :
    (HandleEditEventPost db id d ts src).1 = .success ∧
    (HandleEditEventPost db id d ts src).2.events =
      db.events.map (fun r =>
        if r.id = id then
          { r with
            tagsJson := jsonEnc (if (parseTagsField ts).isEmpty then T0 else parseTagsField ts)
            data := trimRightIn (sl "\r\n") d
            source := src }
        else r) ∧
    (HandleEditEventPost db id d ts src).2.nextId = db.nextId := by
  have hid : r0.id = id := by simpa using List.find?_some hfind
  subst hid
  have hget : GetEventByID db r0.id = .ok (some ⟨r0.id, T0, r0.data, r0.source, r0.createdAt⟩) := by
    unfold GetEventByID
    simp only [hfind, hdec]
  have hfound : ∀ ev : GoEvent, ev.id = r0.id →
      UpdateEvent db ev =
        (.ok (),
          LogEventStatus
            { db with
              events := db.events.map (fun r =>
                if r.id = ev.id then
                  { r with
                    tagsJson := jsonEnc ev.tags
                    data := trimRightIn (sl "\r\n") ev.data
                    source := ev.source }
                else r) }
            ev.id (sl "updated") []) := by
    intro ev hev
    exact UpdateEvent_found db ev r0 (by rw [hev]; exact hfind)
  have key : HandleEditEventPost db r0.id d ts src =
      (.success,
        LogEventStatus
          { db with
            events := db.events.map (fun r =>
              if r.id = r0.id then
                { r with
                  tagsJson :=
                    jsonEnc (if (parseTagsField ts).isEmpty then T0 else parseTagsField ts)
                  data := trimRightIn (sl "\r\n") d
                  source := src }
              else r) }
          r0.id (sl "updated") []) := by
    unfold HandleEditEventPost
    simp only [hget, if_neg hd]
    by_cases hpt : (parseTagsField ts).isEmpty
    · have hlen : ¬ (parseTagsField ts).length > 0 := by
        simp [List.isEmpty_iff.mp hpt]
      simp only [if_neg hlen, hget, ite_self]
      rw [hfound _ rfl]
      simp [hpt]
    · have hlen : (parseTagsField ts).length > 0 := by
        cases hp : parseTagsField ts with
        | nil => exact absurd (by simp [hp]) hpt
        | cons a t => simp [hp]
      have hdec0 : decide ((parseTagsField ts).length = 0) = false :=
        decide_eq_false (by omega)
      simp only [if_pos hlen, hdec0, Bool.false_and, Bool.false_eq_true, if_neg,
        ite_false]
      rw [hfound _ rfl]
      simp [hpt]
  rw [key]
  exact ⟨rfl, by rw [LogEventStatus_events], by rw [LogEventStatus_nextId]⟩

/-- The claim C8 as stated: the stored data and source equal the
submitted form values as they are, the tags stay unchanged for an empty
tags field, and a non-empty tags field always installs its parsed
entries. -/
def claimC8 : Prop :=
  ∀ (db : DB) (id : Nat) (d ts src : Str) (r0 : EventRow) (T0 : List Str),
    db.events.find? (fun r => r.id = id) = some r0 →
    jsonDec r0.tagsJson = some T0 →
    ¬ d.isEmpty →
    (HandleEditEventPost db id d ts src).1 = .success ∧
    ∃ r1, (HandleEditEventPost db id d ts src).2.events.find? (fun r => r.id = id) = some r1 ∧
      r1.data = d ∧ r1.source = src ∧
      jsonDec r1.tagsJson = some (if ts.isEmpty then T0 else parseTagsField ts)

/-- C8 counterexample: submitting data `x` followed by a line feed
stores `x` (the handler saves through UpdateEvent, which trims trailing
CR/LF), not the submitted value; and the second conjunct shows a
non-empty tags field `,` (which parses to no entries) leaving the tags
at their previous value instead of installing the empty list. -/
theorem C8_counterexample :
    ¬ claimC8 ∧
    (HandleEditEventPost dbSample 1 (sl "x") (sl ",") (sl "s9")).2.events.map
        EventRow.tagsJson =
      [sl "[\"a\"]", sl "[\"b\"]"] := by
  constructor
  · intro h
    obtain ⟨-, r1, hr1, hdata, -, -⟩ :=
      h dbSample 1 (sl "x\n") [] (sl "s9") ⟨1, sl "[\"a\"]", sl "d1", sl "s1", 10⟩ [sl "a"]
        (by rfl) (by rfl) (by decide)
    have hcomp : (HandleEditEventPost dbSample 1 (sl "x\n") [] (sl "s9")).2.events.find?
        (fun r => r.id = 1) = some ⟨1, sl "[\"a\"]", sl "x", sl "s9", 10⟩ := by rfl
    obtain rfl : r1 = ⟨1, sl "[\"a\"]", sl "x", sl "s9", 10⟩ :=
      Option.some.inj (hr1.symm.trans hcomp)
    exact absurd hdata (by decide)
  · rfl

/-- C8 witness for the amended claim: a concrete edit with trailing CRLF
in the data and a tags field with blank entries updates only the first
row, producing the trimmed data, new source, and parsed tags. -/
theorem C8_witness :
    (HandleEditEventPost dbSample 1 (sl "new data\r\n") (sl " x ,, y") (sl "src2")).1 =
      .success ∧
    (HandleEditEventPost dbSample 1 (sl "new data\r\n") (sl " x ,, y") (sl "src2")).2.events =
      [⟨1, sl "[\"x\",\"y\"]", sl "new data", sl "src2", 10⟩,
        ⟨2, sl "[\"b\"]", sl "d2", sl "s2", 20⟩] := by
  obtain ⟨h1, h2, -⟩ := C8_theorem dbSample 1 (sl "new data\r\n") (sl " x ,, y") (sl "src2")
      ⟨1, sl "[\"a\"]", sl "d1", sl "s1", 10⟩ [sl "a"] (by rfl) (by rfl) (by decide)
  refine ⟨h1, ?_⟩
  rw [h2]
  rfl

end EventDb






